import Mathlib

/-!
Verification of the claim-processor core of zkp2p/attestor-core.

Shallow embedding of the claim-processor pipeline:
* `Executor.processClaim` and its phases (`extractValues`, `transformValues`,
  `applyOperation`, `buildOutput`) from `src/server/processors/processor-executor.ts`;
* `createProcessorProviderHash` and `encodeAndHash` from
  `src/utils/processors/processed-claim-utils.ts`;
* the `substring` entry of `src/utils/processors/transform-registry.ts`.

JavaScript runtime values that can flow through the executor are modelled by
`Json` (numbers restricted to integers; `undefined` is modelled as absence,
i.e. `Option.none`).  External collaborators (the `jsonpath` library, the
`ethers` keccak256 and ABI coder, `JSON.parse`, and the static processor
validator) are abstract parameters bundled in `Env`; the definitions below
model the control flow of the repository around them.
-/

/-- A JSON / JavaScript value as it flows through the executor.  Numbers are
restricted to integers (the claims settled here never exercise non-integral
arithmetic); `undefined` is represented by absence (`Option.none`), never by a
`Json` constructor, mirroring the `=== undefined` checks of the source. -/
inductive Json where
  | null : Json
  | bool (b : Bool) : Json
  | num (n : Int) : Json
  | str (s : String) : Json
  | arr (items : List Json) : Json
  | obj (entries : List (String × Json)) : Json

/-- Property lookup on a JavaScript object, `o[k]`; `none` is `undefined`. -/
def lookupJ : List (String × Json) → String → Option Json
  | [], _ => none
  | (k, v) :: rest, key => if k = key then some v else lookupJ rest key

/-- Property write `o[k] = v` (also the per-key effect of an object spread):
the key keeps its original position if present, else is appended. -/
def setKey : List (String × Json) → String → Json → List (String × Json)
  | [], k, v => [(k, v)]
  | (k2, v2) :: rest, k, v =>
      if k2 = k then (k2, v) :: rest else (k2, v2) :: setKey rest k v

/-- The object spread `{...base, ...overlay}`: every key of `overlay`
overwrites the corresponding key of `base`, null values included. -/
def spreadMerge (base overlay : List (String × Json)) : List (String × Json) :=
  overlay.foldl (fun acc kv => setKey acc kv.1 kv.2) base

/-- JavaScript nullish coalescing `a ?? b`: falls through on both
`undefined` (`none`) and `null`. -/
def nullish : Option Json → Option Json → Option Json
  | some Json.null, b => b
  | some v, _ => some v
  | none, b => b

/-- JavaScript falsiness of a value (`!v`). -/
def jsFalsy : Json → Bool
  | Json.null => true
  | Json.bool b => !b
  | Json.num n => n == 0
  | Json.str s => s == ""
  | _ => false

/-- Whether a value is a string. -/
def isStr : Json → Bool
  | Json.str _ => true
  | _ => false

/-- Whether a value is `null` (the `=== null` test). -/
def isNull : Json → Bool
  | Json.null => true
  | _ => false

/-- Lowercase hex digit for a value below 16. -/
def hexDigit (n : Nat) : Char :=
  if n < 10 then Char.ofNat (48 + n) else Char.ofNat (87 + n)

/-- Two lowercase hex digits of a byte. -/
def hexByte (n : Nat) : String :=
  String.mk [hexDigit (n / 16 % 16), hexDigit (n % 16)]

/-- JSON string escaping as performed by `JSON.stringify`. -/
def escapeChar (c : Char) : String :=
  if c = '\x22' then "\\\x22"
  else if c = '\\' then "\\\\"
  else if c = '\x08' then "\\b"
  else if c = '\x0c' then "\\f"
  else if c = '\x0a' then "\\n"
  else if c = '\x0d' then "\\r"
  else if c = '\x09' then "\\t"
  else if c.toNat < 32 then "\\u00" ++ hexByte c.toNat
  else String.singleton c

/-- A JSON string literal with its quotes and escapes. -/
def jsonQuote (s : String) : String :=
  "\x22" ++ String.join (s.data.map escapeChar) ++ "\x22"

/-- Insert an already-serialized object entry keeping keys sorted. -/
def insertEntry (e : String × String) : List (String × String) → List (String × String)
  | [] => [e]
  | f :: rest => if e.1 ≤ f.1 then e :: f :: rest else f :: insertEntry e rest

/-- Sort serialized object entries by key (lexicographic), insertion sort. -/
def sortEntries (l : List (String × String)) : List (String × String) :=
  l.foldr insertEntry []

/-- Render one serialized object entry. -/
def renderEntry (e : String × String) : String :=
  jsonQuote e.1 ++ ":" ++ e.2

/-- Sort the entries when emitting canonical JSON, keep insertion order when
modelling plain `JSON.stringify`. -/
def maybeSort (sorted : Bool) (l : List (String × String)) : List (String × String) :=
  if sorted then sortEntries l else l

mutual

/-- Compact JSON serialization; `sorted = true` gives the canonical key-sorted
form, `sorted = false` the insertion-order form of `JSON.stringify`. -/
def stringifyWith (sorted : Bool) : Json → String
  | Json.null => "null"
  | Json.bool b => if b then "true" else "false"
  | Json.num n => toString n
  | Json.str s => jsonQuote s
  | Json.arr xs => "[" ++ String.intercalate "," (stringifyList sorted xs) ++ "]"
  | Json.obj kvs =>
      "\x7b" ++
        String.intercalate ","
          ((maybeSort sorted (stringifyEntries sorted kvs)).map renderEntry) ++
        "\x7d"

/-- Serialize every array element. -/
def stringifyList (sorted : Bool) : List Json → List String
  | [] => []
  | x :: xs => stringifyWith sorted x :: stringifyList sorted xs

/-- Serialize every object entry (values serialized, keys kept). -/
def stringifyEntries (sorted : Bool) : List (String × Json) → List (String × String)
  | [] => []
  | (k, v) :: rest => (k, stringifyWith sorted v) :: stringifyEntries sorted rest

end

/-- Modelled from the spec: `canonicalStringify` (`src/utils/claims`, not part
of the provided sources) — stable JSON with lexicographically sorted keys at
every object level, arrays in order, no insignificant whitespace (spec 4.7). -/
def canonicalStringify (j : Json) : String :=
  stringifyWith true j

/-- `JSON.stringify` with insertion-order keys, used by `safeToString`. -/
def jsonStringifyRaw (j : Json) : String :=
  stringifyWith false j

/-- `safeToString` from `transform-registry.ts`: empty for null (and for
absent values, which are handled before this function is reached),
`JSON.stringify` for objects and arrays, `String(v)` otherwise. -/
def safeToString : Json → String
  | Json.null => ""
  | Json.bool b => if b then "true" else "false"
  | Json.num n => toString n
  | Json.str s => s
  | Json.arr xs => jsonStringifyRaw (Json.arr xs)
  | Json.obj kvs => jsonStringifyRaw (Json.obj kvs)

/-- UTF-8 bytes of a string (`TextEncoder().encode`). -/
def utf8Bytes (s : String) : List Nat :=
  s.toUTF8.toList.map (fun b => b.toNat)

/-- ASCII lowercasing, `String.prototype.toLowerCase` on hex strings. -/
def lowerStr (s : String) : String :=
  String.mk (s.data.map Char.toLower)

/-- A transform operation: either a bare operator name or an object
`{type, ...params}`.  The parameters inspected by the executor itself
(`checkField`, `if`, `then`, `else` of `conditionalOn`) are structured; all
other parameters are carried opaquely in `extra` for the registry.  An absent
`else` and an empty `else` are identified (the registry destructures
`else: elseOps = []`). -/
inductive Op where
  | bare (name : String)
  | node (type : String) (checkField : Option String) (cond : Option Json)
      (thenOps : List Op) (elseOps : List Op) (extra : List (String × Json))

/-- The operator name: the string itself, or the object form's `type`. -/
def opName : Op → String
  | Op.bare n => n
  | Op.node t _ _ _ _ _ => t

/-- Whether an operation is `conditionalOn` (used by the nesting check). -/
def opIsConditionalOn (o : Op) : Bool :=
  opName o = "conditionalOn"

/-- A transform rule: `input` xor `inputs` (or neither, for `constant`),
and a list of operations. -/
structure TransformRule where
  input : Option String := none
  inputs : Option (List String) := none
  ops : List Op := []

/-- One output entry `{name, type}` of a processor. -/
structure OutputSpec where
  name : String
  type : String

/-- The processor document as consumed by the executor. -/
structure Processor where
  extract : List (String × String)
  transform : Option (List (String × TransformRule)) := none
  outputs : List OutputSpec

/-- The claim record (`ProviderClaimData`); `parameters` and `context` are
raw JSON texts. -/
structure ClaimData where
  provider : String := ""
  parameters : String := ""
  owner : String := ""
  timestampS : Int := 0
  context : String := ""
  identifier : String := ""
  epoch : Int := 0

/-- External collaborators of the executor, abstracted:

* `query` — the `jsonpath` library (`jsonpath.query(data, path)`);
* `registry` — the transform registry restricted to plain (value-returning)
  operators; the function receives the whole op so it can read its params;
* `evalCond` — `evaluateCondition(value, condition)` of the registry
  (conditions are JSON documents);
* `parseJson` — `JSON.parse`, `none` when it throws;
* `validateOk` — `validateProcessor(...).valid` of the static validator;
* `keccak` — `ethers.utils.keccak256` rendered as a hex string;
* `abiEncode` — `ethers.utils.defaultAbiCoder.encode` as bytes;
* `procToDoc` — the processor value as the JSON document that is hashed
  (the executor hashes the very object it executes). -/
structure Env where
  query : Json → String → List Json
  registry : String → Option (Json → Op → Except String Json)
  evalCond : Json → Json → Bool
  parseJson : String → Option Json
  validateOk : Processor → Bool
  keccak : List Nat → String
  abiEncode : List String → List Json → List Nat
  procToDoc : Processor → List (String × Json)

/-- Modelled from the spec: the `conditionalOn` entry of the transform
registry.  The registry file shipped in the sources is a superseded revision
whose conditional operator has no `checkField`; the current entry (exercised
by the repository's transform-registry tests and required by the validator
and the executor) is not among the provided sources.  Following spec 4.1 and
the tests: requires `if`, requires `checkField`, reads `context[checkField]`
(unknown field fails), evaluates `if` against that field's value and returns
`then` or `else` (defaulting to the empty list) as a list of operations. -/
def conditionalOnOps (env : Env) (ctx : List (String × Json))
    (checkField : Option String) (cond : Option Json)
    (thenOps elseOps : List Op) : Except String (List Op) :=
  match cond with
  | none => Except.error "conditionalOn requires \x22if\x22 parameter"
  | some c =>
      if jsFalsy c then Except.error "conditionalOn requires \x22if\x22 parameter"
      else
        match checkField with
        | none => Except.error "conditionalOn requires \x22checkField\x22 parameter"
        | some f =>
            if f = "" then
              Except.error "conditionalOn requires \x22checkField\x22 parameter"
            else
              match lookupJ ctx f with
              | none => Except.error ("Field \x27" ++ f ++ "\x27 not found in context")
              | some fieldVal =>
                  Except.ok (if env.evalCond fieldVal c then thenOps else elseOps)

mutual

/-- `Executor.applyOperation` (processor-executor.ts): resolves the operator,
special-cases `conditionalOn` — whose returned operation list is first checked
for nested `conditionalOn` (maximum depth 1) and then applied in order to the
current value — and otherwise runs the registry function.  The `conditionalOn`
branch selection is inlined (it coincides with `conditionalOnOps`, see
`applyOperation_conditionalOn_eq`). -/
def applyOperation (env : Env) (ctx : List (String × Json)) (value : Json) :
    Op → Except String Json
  | Op.bare n =>
      if n = "conditionalOn" then
        -- a bare string op has no params, so the registry function fails
        -- on the missing `if` before any branch can be produced
        Except.error "conditionalOn requires \x22if\x22 parameter"
      else
        match env.registry n with
        | none => Except.error ("Unknown transform: " ++ n)
        | some f => f value (Op.bare n)
  | Op.node t cf cond thenOps elseOps extra =>
      if t = "conditionalOn" then
        match cond with
        | none => Except.error "conditionalOn requires \x22if\x22 parameter"
        | some c =>
            if jsFalsy c then Except.error "conditionalOn requires \x22if\x22 parameter"
            else
              match cf with
              | none => Except.error "conditionalOn requires \x22checkField\x22 parameter"
              | some f =>
                  if f = "" then
                    Except.error "conditionalOn requires \x22checkField\x22 parameter"
                  else
                    match lookupJ ctx f with
                    | none =>
                        Except.error ("Field \x27" ++ f ++ "\x27 not found in context")
                    | some fieldVal =>
                        if (if env.evalCond fieldVal c then thenOps else elseOps).any
                            opIsConditionalOn then
                          Except.error
                            "Nested conditionalOn transforms are not allowed (maximum depth is 1)"
                        else
                          applyOps env ctx value
                            (if env.evalCond fieldVal c then thenOps else elseOps)
      else
        match env.registry t with
        | none => Except.error ("Unknown transform: " ++ t)
        | some f => f value (Op.node t cf cond thenOps elseOps extra)
termination_by op => sizeOf op
decreasing_by
  all_goals simp_wf
  all_goals try split
  all_goals omega

/-- Left-to-right application of a list of operations to a value
(the `for(const op of rule.ops)` loop and the inner sub-op loop). -/
def applyOps (env : Env) (ctx : List (String × Json)) (value : Json) :
    List Op → Except String Json
  | [] => Except.ok value
  | o :: rest =>
      match applyOperation env ctx value o with
      | Except.error e => Except.error e
      | Except.ok v => applyOps env ctx v rest
termination_by ops => sizeOf ops
decreasing_by
  all_goals simp_wf
  all_goals omega

end

/-- JavaScript truthiness of an optional string parameter
(`if(rule.input)`): absent and empty are both falsy. -/
def truthyName : Option String → Option String
  | some "" => none
  | x => x

/-- Resolve the elements of `rule.inputs` in order
(`rule.inputs.map(...)` with a throw on the first undefined input). -/
def resolveInputList (transformed extracted : List (String × Json))
    (varName : String) : List String → Except String (List Json)
  | [] => Except.ok []
  | n :: rest =>
      match nullish (lookupJ transformed n) (lookupJ extracted n) with
      | none =>
          Except.error
            ("Transform input \x27" ++ n ++ "\x27 for variable \x27" ++ varName ++
              "\x27 is undefined")
      | some v =>
          match resolveInputList transformed extracted varName rest with
          | Except.error e => Except.error e
          | Except.ok vs => Except.ok (v :: vs)

/-- Input resolution of one transform rule (`Executor.transformValues`,
before the ops loop): `transformed[n] ?? extracted[n]` for `input`, the same
per element for `inputs`, and `null` for a source-less rule whose first op is
an object op of type `constant` (anything else fails). -/
def resolveRuleInput (transformed extracted : List (String × Json))
    (varName : String) (rule : TransformRule) : Except String Json :=
  match truthyName rule.input with
  | some inp =>
      match nullish (lookupJ transformed inp) (lookupJ extracted inp) with
      | some v => Except.ok v
      | none =>
          Except.error
            ("Transform input \x27" ++ inp ++ "\x27 for variable \x27" ++ varName ++
              "\x27 is undefined")
  | none =>
      match rule.inputs with
      | some inps =>
          match resolveInputList transformed extracted varName inps with
          | Except.error e => Except.error e
          | Except.ok vs => Except.ok (Json.arr vs)
      | none =>
          match rule.ops with
          | Op.node "constant" _ _ _ _ _ :: _ => Except.ok Json.null
          | _ =>
              Except.error
                ("Transform rule for \x27" ++ varName ++
                  "\x27 has no input or inputs specified")

/-- The loop body of `Executor.transformValues`: resolve the rule's input,
build the context from all values produced so far, apply the ops left to
right, and commit the result under the rule's name.  Any failure aborts. -/
def transformValuesAux (env : Env) (extracted : List (String × Json)) :
    List (String × TransformRule) → List (String × Json) →
      Except String (List (String × Json))
  | [], transformed => Except.ok transformed
  | (varName, rule) :: rest, transformed =>
      match resolveRuleInput transformed extracted varName rule with
      | Except.error e => Except.error e
      | Except.ok v0 =>
          match applyOps env (spreadMerge extracted transformed) v0 rule.ops with
          | Except.error e => Except.error e
          | Except.ok v =>
              transformValuesAux env extracted rest (setKey transformed varName v)

/-- `Executor.transformValues`: processes the transform rules in declaration
order starting from an empty `transformed` map. -/
def transformValues (env : Env) (extracted : List (String × Json))
    (rules : List (String × TransformRule)) : Except String (List (String × Json)) :=
  transformValuesAux env extracted rules []

/-- The loop body of `Executor.extractValues`: query the JSONPath, fail on
more than `MAX_JSONPATH_RESULTS = 1000` results, fail on no result, otherwise
assign the first result. -/
def extractValuesAux (env : Env) (root : Json) :
    List (String × String) → List (String × Json) →
      Except String (List (String × Json))
  | [], extracted => Except.ok extracted
  | (varName, path) :: rest, extracted =>
      if 1000 < (env.query root path).length then
        Except.error
          ("JSONPath returned too many results (" ++
            toString (env.query root path).length ++ " > 1000)")
      else
        match env.query root path with
        | [] =>
            Except.error
              ("Value extraction failed for \x27" ++ varName ++
                "\x27 using JSONPath \x27" ++ path ++ "\x27")
        | v :: _ => extractValuesAux env root rest (setKey extracted varName v)

/-- `Executor.extractValues`, starting from an empty map. -/
def extractValues (env : Env) (root : Json) (rules : List (String × String)) :
    Except String (List (String × Json)) :=
  extractValuesAux env root rules []

/-- The loop of `Executor.buildOutput`: look up every output name and fail on
an undefined or null value; defined values are pushed through unchanged. -/
def buildOutputAux (allValues : List (String × Json)) :
    List OutputSpec → Except String (List Json)
  | [] => Except.ok []
  | spec :: rest =>
      match lookupJ allValues spec.name with
      | none =>
          Except.error
            ("Output variable \x27" ++ spec.name ++
              "\x27 is undefined. All output values must be defined.")
      | some v =>
          if isNull v then
            Except.error
              ("Output variable \x27" ++ spec.name ++
                "\x27 is null. All output values must be defined.")
          else
            match buildOutputAux allValues rest with
            | Except.error e => Except.error e
            | Except.ok vs => Except.ok (v :: vs)

/-- `Executor.buildOutput`: fail when there are more than
`MAX_OUTPUT_VALUES = 100` outputs, else the per-entry loop. -/
def buildOutput (outputs : List OutputSpec) (allValues : List (String × Json)) :
    Except String (List Json) :=
  if 100 < outputs.length then
    Except.error
      ("Too many output values (" ++ toString outputs.length ++ " > 100)")
  else buildOutputAux allValues outputs

/-- `JSON.parse` with the fall-back of `parseClaimData`: keep the raw string
when parsing fails. -/
def parseOrKeep (parseJson : String → Option Json) (s : String) : Json :=
  (parseJson s).getD (Json.str s)

/-- `Executor.parseClaimData`: the queryable root for JSONPath, the claim
record with `context` and `parameters` replaced by their parsed forms. -/
def parseClaimData (env : Env) (claim : ClaimData) : Json :=
  Json.obj
    [("provider", Json.str claim.provider),
     ("parameters", parseOrKeep env.parseJson claim.parameters),
     ("owner", Json.str claim.owner),
     ("timestampS", Json.num claim.timestampS),
     ("context", parseOrKeep env.parseJson claim.context),
     ("identifier", Json.str claim.identifier),
     ("epoch", Json.num claim.epoch)]

/-- The provider-hash step of `Executor.processClaim`: `JSON.parse` the raw
claim context (failure aborts), read `providerHash`, and fail when it is
missing or falsy.  A truthy non-string `providerHash` is not modelled (the
surrounding code types it as a string). -/
def getProviderHash (parseJson : String → Option Json) (context : String) :
    Except String String :=
  match parseJson context with
  | none => Except.error "Failed to parse claim context for provider hash"
  | some ctxJson =>
      match ctxJson with
      | Json.obj entries =>
          match lookupJ entries "providerHash" with
          | some (Json.str s) =>
              if s = "" then Except.error "Provider hash missing from claim context"
              else Except.ok s
          | _ => Except.error "Provider hash missing from claim context"
      | _ => Except.error "Provider hash missing from claim context"

/-- `createProcessorProviderHash` (processed-claim-utils.ts): hash the
canonical serialization of the processor document, then hash
`providerHash ++ "\n" ++ processorHash`, lowercasing both hex renderings. -/
def createProcessorProviderHash (keccak : List Nat → String)
    (providerHash : String) (doc : List (String × Json)) : String :=
  lowerStr
    (keccak
      (utf8Bytes
        (providerHash ++ "\n" ++
          lowerStr (keccak (utf8Bytes (canonicalStringify (Json.obj doc)))))))

/-- `encodeAndHash` (processed-claim-utils.ts): keccak256 of the ABI encoding
of `["bytes32", ...outputs.type]` against `[processorProviderHash, ...values]`. -/
def encodeAndHash (keccak : List Nat → String)
    (abiEncode : List String → List Json → List Nat)
    (processorProviderHash : String) (values : List Json)
    (outputs : List OutputSpec) : String :=
  keccak
    (abiEncode ("bytes32" :: outputs.map (fun o => o.type))
      (Json.str processorProviderHash :: values))

/-- The transform phase as invoked by `processClaim`: skipped (empty map)
when the processor has no `transform` section. -/
def transformPart (env : Env) (processor : Processor)
    (extracted : List (String × Json)) : Except String (List (String × Json)) :=
  match processor.transform with
  | some rules => transformValues env extracted rules
  | none => Except.ok []

/-- The result of a successful `processClaim` before signing. -/
structure PipelineResult where
  processorProviderHash : String
  messageHash : String
  outputs : List OutputSpec
  values : List Json

/-- `Executor.processClaim` (processor-executor.ts) up to the signing step:
validate, parse the claim, extract, transform, build the outputs, reject an
empty value list, read the provider hash from the context, hash the
version-injected processor document, and ABI-encode-and-hash the message.
The wall-clock timeout checks are not modelled (real time); the validator's
error list is abstracted into a single message. -/
def processClaimCore (env : Env) (processor : Processor) (claim : ClaimData) :
    Except String PipelineResult :=
  if env.validateOk processor then
    match extractValues env (parseClaimData env claim) processor.extract with
    | Except.error e => Except.error e
    | Except.ok extracted =>
        match transformPart env processor extracted with
        | Except.error e => Except.error e
        | Except.ok transformed =>
            match buildOutput processor.outputs (spreadMerge extracted transformed) with
            | Except.error e => Except.error e
            | Except.ok values =>
                if values.isEmpty then Except.error "Processor returned no values"
                else
                  match getProviderHash env.parseJson claim.context with
                  | Except.error e => Except.error e
                  | Except.ok providerHash =>
                      let versionedDoc :=
                        setKey (env.procToDoc processor) "version" (Json.str "1.0.0")
                      let pph :=
                        createProcessorProviderHash env.keccak providerHash versionedDoc
                      Except.ok
                        ⟨pph,
                          encodeAndHash env.keccak env.abiEncode pph values
                            processor.outputs,
                          processor.outputs, values⟩
  else Except.error "Invalid processor"

/-- JavaScript `String.prototype.substring`: fractional-free indices are
clamped into `[0, length]` and swapped when `start > end`; an absent `end`
means the string length. -/
def jsSubstring (s : String) (start : Int) (stop : Option Int) : String :=
  let n : Int := Int.ofNat s.length
  let a : Nat := (max 0 (min start n)).toNat
  let b : Nat :=
    match stop with
    | none => s.length
    | some e => (max 0 (min e n)).toNat
  String.mk ((s.data.drop (min a b)).take (max a b - min a b))

/-- The `substring` entry of `transform-registry.ts`: rejects a negative
`start` and a present `end` smaller than `start` with
`Invalid substring indices`, otherwise defers to `String.prototype.substring`. -/
def substringTransform (value : Json) (start : Int) (stop : Option Int) :
    Except String String :=
  if start < 0 then Except.error "Invalid substring indices"
  else
    match stop with
    | some e =>
        if e < start then Except.error "Invalid substring indices"
        else Except.ok (jsSubstring (safeToString value) start (some e))
    | none => Except.ok (jsSubstring (safeToString value) start none)

lemma lookupJ_setKey (m : List (String × Json)) (k k' : String) (v : Json) :
    lookupJ (setKey m k v) k' = if k = k' then some v else lookupJ m k' := by
  induction m with
  | nil =>
      by_cases h : k = k' <;> simp [setKey, lookupJ, h]
  | cons kv rest ih =>
      obtain ⟨k2, v2⟩ := kv
      by_cases h2 : k2 = k
      · subst h2
        by_cases h : k2 = k' <;> simp [setKey, lookupJ, h]
      · by_cases h3 : k2 = k'
        · subst h3
          simp [setKey, lookupJ, h2]
          rw [if_neg (fun hkk => h2 hkk.symm)]
        · simp [setKey, lookupJ, h2, h3, ih]

lemma lookupJ_setKey_self (m : List (String × Json)) (k : String) (v : Json) :
    lookupJ (setKey m k v) k = some v := by
  simp [lookupJ_setKey]

lemma lookupJ_setKey_isSome (m : List (String × Json)) (k k' : String) (v : Json)
    (h : (lookupJ m k').isSome) : (lookupJ (setKey m k v) k').isSome := by
  rw [lookupJ_setKey]
  by_cases hk : k = k' <;> simp [hk, h]

/-- Inversion of one successful step of the extract loop. -/
lemma extractValuesAux_cons_ok (env : Env) (root : Json) (varName path : String)
    (rest : List (String × String)) (extracted ext : List (String × Json))
    (h : extractValuesAux env root ((varName, path) :: rest) extracted = Except.ok ext) :
    ∃ v tl, env.query root path = v :: tl ∧
      extractValuesAux env root rest (setKey extracted varName v) = Except.ok ext := by
  rw [extractValuesAux] at h
  split at h
  · exact absurd h (by simp)
  · split at h
    · exact absurd h (by simp)
    · exact ⟨_, _, by assumption, h⟩

/-- On success, every extract key (and every key already present) is bound. -/
lemma extractValuesAux_ok_isSome (env : Env) (root : Json) :
    ∀ (rules : List (String × String)) (ext0 ext : List (String × Json)),
      extractValuesAux env root rules ext0 = Except.ok ext →
      ∀ k, ((∃ p, (k, p) ∈ rules) ∨ (lookupJ ext0 k).isSome) →
        (lookupJ ext k).isSome := by
  intro rules
  induction rules with
  | nil =>
      intro ext0 ext h k hk
      rw [extractValuesAux] at h
      cases h
      rcases hk with ⟨p, hp⟩ | hs
      · simp at hp
      · exact hs
  | cons r rest ih =>
      intro ext0 ext h k hk
      obtain ⟨n, p⟩ := r
      obtain ⟨v, tl, hq, h⟩ := extractValuesAux_cons_ok env root n p rest ext0 ext h
      refine ih (setKey ext0 n v) ext h k ?_
      rcases hk with ⟨p2, hp2⟩ | hs
      · rcases List.mem_cons.mp hp2 with hEq | hMem
        · right
          have : k = n := by
            have := congrArg Prod.fst hEq
            simpa using this
          subst this
          simp [lookupJ_setKey_self]
        · exact Or.inl ⟨p2, hMem⟩
      · exact Or.inr (lookupJ_setKey_isSome ext0 n k v hs)

/-- A nullish-coalescing lookup is defined whenever the fallback is. -/
lemma nullish_isSome_of_right (a : Option Json) (b : Option Json)
    (h : b.isSome) : (nullish a b).isSome := by
  match a with
  | none => simpa [nullish]
  | some Json.null => simpa [nullish]
  | some (Json.bool x) => simp [nullish]
  | some (Json.num x) => simp [nullish]
  | some (Json.str x) => simp [nullish]
  | some (Json.arr x) => simp [nullish]
  | some (Json.obj x) => simp [nullish]

/-- Inversion of a successful run of the whole pipeline. -/
lemma processClaimCore_ok_inv (env : Env) (p : Processor) (c : ClaimData)
    (r : PipelineResult) (h : processClaimCore env p c = Except.ok r) :
    env.validateOk p = true ∧
    ∃ extracted transformed values providerHash,
      extractValues env (parseClaimData env c) p.extract = Except.ok extracted ∧
      transformPart env p extracted = Except.ok transformed ∧
      buildOutput p.outputs (spreadMerge extracted transformed) = Except.ok values ∧
      values.isEmpty = false ∧
      getProviderHash env.parseJson c.context = Except.ok providerHash ∧
      r = ⟨createProcessorProviderHash env.keccak providerHash
              (setKey (env.procToDoc p) "version" (Json.str "1.0.0")),
            encodeAndHash env.keccak env.abiEncode
              (createProcessorProviderHash env.keccak providerHash
                (setKey (env.procToDoc p) "version" (Json.str "1.0.0")))
              values p.outputs,
            p.outputs, values⟩ := by
  unfold processClaimCore at h
  split at h
  case isTrue hv =>
    refine ⟨hv, ?_⟩
    split at h
    · exact absurd h (by simp)
    case _ extracted hex =>
      split at h
      · exact absurd h (by simp)
      case _ transformed htr =>
        split at h
        · exact absurd h (by simp)
        case _ values hbo =>
          split at h
          · exact absurd h (by simp)
          case isFalse hne =>
            split at h
            · exact absurd h (by simp)
            case _ providerHash hph =>
              refine ⟨extracted, transformed, values, providerHash,
                hex, htr, hbo, by simpa using hne, hph, ?_⟩
              simp only [Except.ok.injEq] at h
              exact h.symm
  case isFalse =>
    exact absurd h (by simp)

/-- C4: for every `(name, jsonpath)` entry of the extract map, processed in
iteration order: more than 1000 JSONPath results fail the execution; no result
fails with the message `Value extraction failed for '<name>' using JSONPath
'<path>'`; otherwise the first query result is assigned to `extracted[name]`
and the loop continues with the remaining entries. -/
theorem claim_c4_extract_entry (env : Env) (root : Json) (varName path : String)
    (rest : List (String × String)) (extracted : List (String × Json)) :
    (1000 < (env.query root path).length →
      extractValuesAux env root ((varName, path) :: rest) extracted =
        Except.error ("JSONPath returned too many results (" ++
          toString (env.query root path).length ++ " > 1000)")) ∧
    (env.query root path = [] →
      extractValuesAux env root ((varName, path) :: rest) extracted =
        Except.error ("Value extraction failed for \x27" ++ varName ++
          "\x27 using JSONPath \x27" ++ path ++ "\x27")) ∧
    (∀ v tl, env.query root path = v :: tl → tl.length < 1000 →
      extractValuesAux env root ((varName, path) :: rest) extracted =
        extractValuesAux env root rest (setKey extracted varName v)) := by
  refine ⟨?_, ?_, ?_⟩
  · intro h
    rw [extractValuesAux, if_pos h]
  · intro h
    rw [extractValuesAux, if_neg (by simp [h])]
    simp only [h]
  · intro v tl h hlen
    rw [extractValuesAux, if_neg (by rw [h]; simp; omega)]
    simp only [h]

/-- A concrete environment exercising the extract phase: one JSONPath with
1001 results, one with none, one with a single string result. -/
def extractWitnessEnv : Env where
  query := fun _ p =>
    if p = "$.big" then List.replicate 1001 Json.null
    else if p = "$.missing" then []
    else [Json.str "found"]
  registry := fun _ => none
  evalCond := fun _ _ => true
  parseJson := fun _ => none
  validateOk := fun _ => true
  keccak := fun _ => "0xk"
  abiEncode := fun _ _ => []
  procToDoc := fun _ => []

set_option maxRecDepth 8192 in
theorem claim_c4_extract_entry_witness :
    extractValuesAux extractWitnessEnv Json.null [("a", "$.big")] [] =
      Except.error "JSONPath returned too many results (1001 > 1000)" ∧
    extractValuesAux extractWitnessEnv Json.null [("b", "$.missing")] [] =
      Except.error
        "Value extraction failed for \x27b\x27 using JSONPath \x27$.missing\x27" ∧
    extractValuesAux extractWitnessEnv Json.null [("c", "$.ok")] [] =
      extractValuesAux extractWitnessEnv Json.null [] [("c", Json.str "found")] := by
  have hbig : extractWitnessEnv.query Json.null "$.big" =
      List.replicate 1001 Json.null := rfl
  refine ⟨?_, ?_, ?_⟩
  · exact (claim_c4_extract_entry extractWitnessEnv Json.null "a" "$.big" [] []).1
      (by rw [hbig, List.length_replicate]; omega)
  · exact (claim_c4_extract_entry extractWitnessEnv Json.null "b" "$.missing" [] []).2.1
      rfl
  · exact (claim_c4_extract_entry extractWitnessEnv Json.null "c" "$.ok" [] []).2.2
      (Json.str "found") [] rfl (by simp)

/-- C10: when the extract phase succeeds, every extract key is bound to a
defined (possibly null) value, and therefore the input resolution of a
transform rule whose `input` or `inputs` reference only extracted names can
never produce the runtime `Transform input ... is undefined` error — it
resolves successfully. -/
theorem claim_c10_extract_definedness (env : Env) (root : Json) :
    (∀ (rules : List (String × String)) (extracted : List (String × Json)),
      extractValues env root rules = Except.ok extracted →
      ∀ varName path, (varName, path) ∈ rules →
        (lookupJ extracted varName).isSome) ∧
    (∀ (transformed extracted : List (String × Json)) (varName inp : String)
        (rule : TransformRule), truthyName rule.input = some inp →
      (lookupJ extracted inp).isSome →
      ∃ v, resolveRuleInput transformed extracted varName rule = Except.ok v) ∧
    (∀ (transformed extracted : List (String × Json)) (varName : String)
        (rule : TransformRule) (inps : List String),
      truthyName rule.input = none → rule.inputs = some inps →
      (∀ n, n ∈ inps → (lookupJ extracted n).isSome) →
      ∃ vs, resolveRuleInput transformed extracted varName rule =
        Except.ok (Json.arr vs)) := by
  refine ⟨?_, ?_, ?_⟩
  · intro rules extracted h varName path hmem
    exact extractValuesAux_ok_isSome env root rules [] extracted h varName
      (Or.inl ⟨path, hmem⟩)
  · intro transformed extracted varName inp rule hinp hs
    have hns := nullish_isSome_of_right (lookupJ transformed inp)
      (lookupJ extracted inp) hs
    obtain ⟨v, hv⟩ := Option.isSome_iff_exists.mp hns
    exact ⟨v, by simp only [resolveRuleInput, hinp, hv]⟩
  · intro transformed extracted varName rule inps hinp hinps hall
    have hlist : ∃ vs, resolveInputList transformed extracted varName inps =
        Except.ok vs := by
      clear hinps hinp
      induction inps with
      | nil => exact ⟨[], rfl⟩
      | cons n rest ih =>
          have hn := nullish_isSome_of_right (lookupJ transformed n)
            (lookupJ extracted n) (hall n (by simp))
          obtain ⟨v, hv⟩ := Option.isSome_iff_exists.mp hn
          obtain ⟨vs, hvs⟩ := ih (fun m hm => hall m (by simp [hm]))
          exact ⟨v :: vs, by simp only [resolveInputList, hv, hvs]⟩
    obtain ⟨vs, hvs⟩ := hlist
    exact ⟨vs, by simp only [resolveRuleInput, hinp, hinps, hvs]⟩

theorem claim_c10_extract_definedness_witness :
    (lookupJ [("amount", Json.str "found")] "amount").isSome = true ∧
    (∃ v, resolveRuleInput [] [("amount", Json.str "1.00")] "cents"
        { input := some "amount", ops := [] } = Except.ok v) := by
  refine ⟨?_, ?_⟩
  · exact (claim_c10_extract_definedness extractWitnessEnv Json.null).1
      [("amount", "$.amount")] [("amount", Json.str "found")] rfl
      "amount" "$.amount" (by simp)
  · exact (claim_c10_extract_definedness extractWitnessEnv Json.null).2.1
      [] [("amount", Json.str "1.00")] "cents" "amount"
      { input := some "amount", ops := [] } rfl (by rfl)

/-- C8 (code evaluation): the shipped `substring` transform rejects
`start = 3, end = 1` with `Invalid substring indices`, while JavaScript
`String.prototype.substring` — the behaviour asserted by the claim, by the
repository's own transform-registry tests and by the spec — swaps the indices
and yields `"el"`; a `start` beyond the string length does yield the empty
string. -/
theorem claim_c8_substring_eval :
    substringTransform (Json.str "hello") 3 (some 1) =
      Except.error "Invalid substring indices" ∧
    jsSubstring "hello" 3 (some 1) = "el" ∧
    substringTransform (Json.str "abc") 10 none = Except.ok "" := by
  exact ⟨rfl, rfl, rfl⟩

/-- The inlined `conditionalOn` branch of `applyOperation` coincides with
calling the registry function `conditionalOnOps` and post-processing its
result exactly as the executor does: errors propagate, a branch containing a
nested `conditionalOn` is rejected, and otherwise the branch is applied to
the current value. -/
lemma applyOperation_conditionalOn_eq (env : Env) (ctx : List (String × Json))
    (value : Json) (cf : Option String) (cond : Option Json)
    (thenOps elseOps : List Op) (extra : List (String × Json)) :
    applyOperation env ctx value
        (Op.node "conditionalOn" cf cond thenOps elseOps extra) =
      match conditionalOnOps env ctx cf cond thenOps elseOps with
      | Except.error e => Except.error e
      | Except.ok branch =>
          if branch.any opIsConditionalOn then
            Except.error
              "Nested conditionalOn transforms are not allowed (maximum depth is 1)"
          else applyOps env ctx value branch := by
  rw [applyOperation.eq_def]
  dsimp only
  rw [if_pos rfl]
  unfold conditionalOnOps
  cases cond with
  | none => rfl
  | some c =>
      by_cases hc : jsFalsy c
      · simp only [if_pos hc]
      · simp only [if_neg hc]
        cases cf with
        | none => rfl
        | some f =>
            by_cases hf : f = ""
            · simp only [if_pos hf]
            · simp only [if_neg hf]
              cases hl : lookupJ ctx f with
              | none => rfl
              | some fieldVal => rfl

/-- C6: the `conditionalOn` operator reads `context[checkField]` from the
execution context of previously produced variables — an unknown `checkField`
fails with `Field '<f>' not found in context`; the `if` condition is
evaluated against that field's value (not against the op's subject); the op
yields `then` when it holds and `else` (defaulting to the empty list)
otherwise, as a list of operations which the executor applies in order to the
current value before continuing with the remaining ops of the enclosing
pipeline. -/
theorem claim_c6_conditional_on (env : Env) :
    (∀ (ctx : List (String × Json)) (c : Json) (f : String) (fieldVal : Json)
        (thenOps elseOps : List Op),
      f ≠ "" → jsFalsy c = false → lookupJ ctx f = some fieldVal →
      conditionalOnOps env ctx (some f) (some c) thenOps elseOps =
        Except.ok (if env.evalCond fieldVal c then thenOps else elseOps)) ∧
    (∀ (ctx : List (String × Json)) (c : Json) (f : String)
        (thenOps elseOps : List Op) (extra : List (String × Json)) (value : Json),
      f ≠ "" → jsFalsy c = false → lookupJ ctx f = none →
      applyOperation env ctx value
          (Op.node "conditionalOn" (some f) (some c) thenOps elseOps extra) =
        Except.error ("Field \x27" ++ f ++ "\x27 not found in context")) ∧
    (∀ (ctx : List (String × Json)) (c : Json) (f : String) (fieldVal : Json)
        (thenOps elseOps : List Op) (extra : List (String × Json)) (value : Json)
        (rest : List Op),
      f ≠ "" → jsFalsy c = false → lookupJ ctx f = some fieldVal →
      (if env.evalCond fieldVal c then thenOps else elseOps).any
          opIsConditionalOn = false →
      applyOps env ctx value
          (Op.node "conditionalOn" (some f) (some c) thenOps elseOps extra :: rest) =
        match applyOps env ctx value
            (if env.evalCond fieldVal c then thenOps else elseOps) with
        | Except.error e => Except.error e
        | Except.ok v => applyOps env ctx v rest) := by
  have hops : ∀ (ctx : List (String × Json)) (c : Json) (f : String)
      (fieldVal : Json) (thenOps elseOps : List Op),
      jsFalsy c = false → f ≠ "" → lookupJ ctx f = some fieldVal →
      conditionalOnOps env ctx (some f) (some c) thenOps elseOps =
        Except.ok (if env.evalCond fieldVal c then thenOps else elseOps) := by
    intro ctx c f fieldVal thenOps elseOps hc hf hl
    unfold conditionalOnOps
    simp only [hc, Bool.false_eq_true, if_false, if_neg hf, hl]
  refine ⟨fun ctx c f fieldVal thenOps elseOps hf hc hl =>
    hops ctx c f fieldVal thenOps elseOps hc hf hl, ?_, ?_⟩
  · intro ctx c f thenOps elseOps extra value hf hc hl
    rw [applyOperation_conditionalOn_eq]
    unfold conditionalOnOps
    simp only [hc, Bool.false_eq_true, if_false, if_neg hf, hl]
  · intro ctx c f fieldVal thenOps elseOps extra value rest hf hc hl hno
    rw [applyOps]
    rw [applyOperation_conditionalOn_eq]
    rw [hops ctx c f fieldVal thenOps elseOps hc hf hl]
    simp only [hno, Bool.false_eq_true, if_false]

/-- A context and condition for the conditional witnesses: the environment's
condition evaluator always answers `true`, so the `then` branch is chosen. -/
def condCtx : List (String × Json) := [("currency", Json.str "JPY")]

theorem claim_c6_conditional_on_witness :
    conditionalOnOps extractWitnessEnv condCtx (some "currency")
        (some (Json.obj [("eq", Json.str "JPY")])) [Op.bare "trim"] [] =
      Except.ok [Op.bare "trim"] ∧
    applyOperation extractWitnessEnv condCtx (Json.str "1000")
        (Op.node "conditionalOn" (some "missingField")
          (some (Json.obj [("eq", Json.str "JPY")])) [] [] []) =
      Except.error "Field \x27missingField\x27 not found in context" ∧
    applyOps extractWitnessEnv condCtx (Json.str "1000")
        [Op.node "conditionalOn" (some "currency")
          (some (Json.obj [("eq", Json.str "JPY")])) [] [] []] =
      Except.ok (Json.str "1000") := by
  have h := claim_c6_conditional_on extractWitnessEnv
  refine ⟨?_, ?_, ?_⟩
  · exact h.1 condCtx (Json.obj [("eq", Json.str "JPY")]) "currency"
      (Json.str "JPY") [Op.bare "trim"] [] (by simp) rfl rfl
  · exact h.2.1 condCtx (Json.obj [("eq", Json.str "JPY")]) "missingField"
      [] [] [] (Json.str "1000") (by simp) rfl rfl
  · have hstep := h.2.2 condCtx (Json.obj [("eq", Json.str "JPY")]) "currency"
      (Json.str "JPY") [] [] [] (Json.str "1000") [] (by simp) rfl rfl rfl
    rw [hstep]
    have hbranch : (if extractWitnessEnv.evalCond (Json.str "JPY")
        (Json.obj [("eq", Json.str "JPY")]) = true then ([] : List Op) else []) =
        ([] : List Op) := if_pos rfl
    rw [hbranch]
    have hnil : applyOps extractWitnessEnv condCtx (Json.str "1000") ([] : List Op) =
        Except.ok (Json.str "1000") := by rw [applyOps]
    rw [hnil]
    exact hnil

/-- C7: executing a `conditionalOn` op whose chosen branch contains another
`conditionalOn` fails with the nesting error (maximum depth 1); the result is
this error for every registry and every subject value, so no op of the branch
is ever applied. -/
theorem claim_c7_nested_conditional (env : Env) (ctx : List (String × Json))
    (value : Json) (f : String) (c fieldVal : Json) (thenOps elseOps : List Op)
    (extra : List (String × Json)) (hf : f ≠ "") (hc : jsFalsy c = false)
    (hl : lookupJ ctx f = some fieldVal)
    (hnested : (if env.evalCond fieldVal c then thenOps else elseOps).any
        opIsConditionalOn = true) :
    applyOperation env ctx value
        (Op.node "conditionalOn" (some f) (some c) thenOps elseOps extra) =
      Except.error
        "Nested conditionalOn transforms are not allowed (maximum depth is 1)" := by
  rw [applyOperation_conditionalOn_eq]
  unfold conditionalOnOps
  simp only [hc, Bool.false_eq_true, if_false, if_neg hf, hl, hnested, if_true]

theorem claim_c7_nested_conditional_witness :
    applyOperation extractWitnessEnv condCtx (Json.str "1000")
        (Op.node "conditionalOn" (some "currency")
          (some (Json.obj [("eq", Json.str "JPY")]))
          [Op.node "conditionalOn" (some "currency")
            (some (Json.obj [("eq", Json.str "KRW")])) [] [] []]
          [] []) =
      Except.error
        "Nested conditionalOn transforms are not allowed (maximum depth is 1)" := by
  exact claim_c7_nested_conditional extractWitnessEnv condCtx (Json.str "1000")
    "currency" (Json.obj [("eq", Json.str "JPY")]) (Json.str "JPY")
    [Op.node "conditionalOn" (some "currency")
      (some (Json.obj [("eq", Json.str "KRW")])) [] [] []]
    [] [] (by simp) rfl rfl rfl

/-- C3: failures are fatal for the canonical executor — an extraction error,
a transform error (including unknown-operator and resource-bound errors,
which surface as errors of those phases), or an output-phase error each
aborts `processClaim` with that very error, so no `ProcessedClaimData` is
produced; and inside the transform phase a failing op pipeline aborts the
whole run instead of committing any replacement value for the variable. -/
theorem claim_c3_failures_abort (env : Env) (p : Processor) (c : ClaimData)
    (e : String) (hv : env.validateOk p = true) :
    (extractValues env (parseClaimData env c) p.extract = Except.error e →
      processClaimCore env p c = Except.error e) ∧
    (∀ extracted,
      extractValues env (parseClaimData env c) p.extract = Except.ok extracted →
      transformPart env p extracted = Except.error e →
      processClaimCore env p c = Except.error e) ∧
    (∀ extracted transformed,
      extractValues env (parseClaimData env c) p.extract = Except.ok extracted →
      transformPart env p extracted = Except.ok transformed →
      buildOutput p.outputs (spreadMerge extracted transformed) = Except.error e →
      processClaimCore env p c = Except.error e) ∧
    (∀ (varName : String) (rule : TransformRule)
        (rest : List (String × TransformRule))
        (extracted transformed : List (String × Json)) (v : Json),
      resolveRuleInput transformed extracted varName rule = Except.ok v →
      applyOps env (spreadMerge extracted transformed) v rule.ops = Except.error e →
      transformValuesAux env extracted ((varName, rule) :: rest) transformed =
        Except.error e) := by
  refine ⟨?_, ?_, ?_, ?_⟩
  · intro he
    simp only [processClaimCore, hv, if_true, he]
  · intro extracted hex htr
    simp only [processClaimCore, hv, if_true, hex, htr]
  · intro extracted transformed hex htr hbo
    simp only [processClaimCore, hv, if_true, hex, htr, hbo]
  · intro varName rule rest extracted transformed v hres hops
    simp only [transformValuesAux, hres, hops]

/-- A processor whose single extract entry has no JSONPath match. -/
def missingProc : Processor :=
  { extract := [("x", "$.missing")], outputs := [⟨"x", "string"⟩] }

theorem claim_c3_failures_abort_witness :
    processClaimCore extractWitnessEnv missingProc {} =
      Except.error
        "Value extraction failed for \x27x\x27 using JSONPath \x27$.missing\x27" := by
  exact (claim_c3_failures_abort extractWitnessEnv missingProc {}
    "Value extraction failed for \x27x\x27 using JSONPath \x27$.missing\x27" rfl).1
    rfl

/-- Characterization of a successful output loop: one value per output spec,
each being the (non-null) value the merged map holds under the spec's name. -/
lemma buildOutputAux_ok (allValues : List (String × Json)) :
    ∀ (outputs : List OutputSpec) (vs : List Json),
      buildOutputAux allValues outputs = Except.ok vs →
      vs.length = outputs.length ∧
      ∀ i (hi : i < outputs.length) (hv : i < vs.length),
        lookupJ allValues (outputs.get ⟨i, hi⟩).name = some (vs.get ⟨i, hv⟩) ∧
        isNull (vs.get ⟨i, hv⟩) = false := by
  intro outputs
  induction outputs with
  | nil =>
      intro vs h
      simp only [buildOutputAux, Except.ok.injEq] at h
      subst h
      exact ⟨rfl, fun i hi _ => absurd hi (by simp)⟩
  | cons spec rest ih =>
      intro vs h
      simp only [buildOutputAux] at h
      split at h
      · exact absurd h (by simp)
      next v hl =>
        split at h
        · exact absurd h (by simp)
        next hn =>
          split at h
          next e hr => exact absurd h (by simp)
          next vs2 hr =>
            simp only [Except.ok.injEq] at h
            subst h
            obtain ⟨hlen, hidx⟩ := ih vs2 hr
            refine ⟨by simp [hlen], ?_⟩
            intro i hi hv
            cases i with
            | zero =>
                refine ⟨hl, ?_⟩
                simpa using hn
            | succ n =>
                have hi2 : n < rest.length := by simpa using hi
                have hv2 : n < vs2.length := by simpa using hv
                exact hidx n hi2 hv2

/-- C5 (amended): in the output phase each `outputs[i].name` is resolved by a
lookup in the spread-merge `{...extracted, ...transformed}` — a transformed
value overrides an extracted one even when it is null; a resolved value that
is undefined or null fails the execution; more than 100 outputs fail; and on
success the value list has exactly one entry per output, each entry being the
resolved value passed through unchanged (no coercion to string). -/
theorem claim_c5_output_phase (outputs : List OutputSpec)
    (allValues : List (String × Json)) :
    (100 < outputs.length →
      buildOutput outputs allValues =
        Except.error
          ("Too many output values (" ++ toString outputs.length ++ " > 100)")) ∧
    (∀ vs, buildOutput outputs allValues = Except.ok vs →
      vs.length = outputs.length ∧
      ∀ i (hi : i < outputs.length) (hv : i < vs.length),
        lookupJ allValues (outputs.get ⟨i, hi⟩).name = some (vs.get ⟨i, hv⟩) ∧
        isNull (vs.get ⟨i, hv⟩) = false) ∧
    (∀ (env : Env) (p : Processor) (c : ClaimData) (r : PipelineResult),
      processClaimCore env p c = Except.ok r →
      ∃ extracted transformed,
        extractValues env (parseClaimData env c) p.extract = Except.ok extracted ∧
        transformPart env p extracted = Except.ok transformed ∧
        buildOutput p.outputs (spreadMerge extracted transformed) =
          Except.ok r.values ∧
        r.outputs = p.outputs) := by
  refine ⟨?_, ?_, ?_⟩
  · intro h
    rw [buildOutput, if_pos h]
  · intro vs h
    rw [buildOutput] at h
    split at h
    · exact absurd h (by simp)
    · exact buildOutputAux_ok allValues outputs vs h
  · intro env p c r hok
    obtain ⟨hv, extracted, transformed, values, providerHash,
      hex, htr, hbo, hne, hph, hr⟩ := processClaimCore_ok_inv env p c r hok
    subst hr
    exact ⟨extracted, transformed, hex, htr, hbo, rfl⟩

/-- C5 (counterexample): with `extracted = {x: "5", y: null}` and
`transformed = {x: null}` — reachable, e.g. via a rule
`x = {input: "y", ops: [{type: "assertEquals", expected: null}]}` — the code's
spread-merge resolution makes the output phase fail on the null `x`, while
the resolution `transformed[name] ?? extracted[name]` stated by the claim
yields the defined value `"5"`; and a defined non-string value, e.g. an
extracted JSON number, is emitted unchanged, so `values[i]` need not be a
string. -/
theorem claim_c5_counterexample :
    buildOutput [⟨"x", "string"⟩]
        (spreadMerge [("x", Json.str "5"), ("y", Json.null)] [("x", Json.null)]) =
      Except.error
        "Output variable \x27x\x27 is null. All output values must be defined." ∧
    nullish (lookupJ [("x", Json.null)] "x")
        (lookupJ [("x", Json.str "5"), ("y", Json.null)] "x") =
      some (Json.str "5") ∧
    buildOutput [⟨"x", "uint256"⟩] [("x", Json.num 5)] =
      Except.ok [Json.num 5] ∧
    isStr (Json.num 5) = false :=
  ⟨rfl, rfl, rfl, rfl⟩

/-- An outputs list one entry beyond `MAX_OUTPUT_VALUES`. -/
def manyOutputs : List OutputSpec := List.replicate 101 ⟨"x", "uint256"⟩

set_option maxRecDepth 4096 in
theorem claim_c5_output_phase_witness :
    buildOutput manyOutputs [] =
      Except.error "Too many output values (101 > 100)" ∧
    ([Json.str "5"].length = [(⟨"x", "string"⟩ : OutputSpec)].length ∧
      ∀ i (hi : i < [(⟨"x", "string"⟩ : OutputSpec)].length)
        (hv : i < [Json.str "5"].length),
        lookupJ [("x", Json.str "5")]
            ([(⟨"x", "string"⟩ : OutputSpec)].get ⟨i, hi⟩).name =
          some ([Json.str "5"].get ⟨i, hv⟩) ∧
        isNull ([Json.str "5"].get ⟨i, hv⟩) = false) := by
  constructor
  · exact (claim_c5_output_phase manyOutputs []).1
      (by simp only [manyOutputs, List.length_replicate]; omega)
  · exact (claim_c5_output_phase [⟨"x", "string"⟩] [("x", Json.str "5")]).2.1
      [Json.str "5"] rfl

/-- C1: the message hash produced for signing is keccak256 of the standard
ABI encoding (the abstract `abiEncode`) of the tuple typed
`["bytes32", outputs[0].type, ...]` with values
`[processorProviderHash, ...values]` — both for `encodeAndHash` itself on any
equal-length outputs and values, and for the hash actually carried in a
successful `processClaim` result. -/
theorem claim_c1_message_hash (env : Env) (p : Processor) (c : ClaimData)
    (r : PipelineResult) (pph : String) (values : List Json)
    (outputs : List OutputSpec) (_hlen : values.length = outputs.length)
    (hok : processClaimCore env p c = Except.ok r) :
    encodeAndHash env.keccak env.abiEncode pph values outputs =
      env.keccak (env.abiEncode ("bytes32" :: outputs.map (fun o => o.type))
        (Json.str pph :: values)) ∧
    r.messageHash =
      env.keccak (env.abiEncode ("bytes32" :: r.outputs.map (fun o => o.type))
        (Json.str r.processorProviderHash :: r.values)) := by
  refine ⟨rfl, ?_⟩
  obtain ⟨hv, extracted, transformed, vals, providerHash,
    hex, htr, hbo, hne, hph, hr⟩ := processClaimCore_ok_inv env p c r hok
  subst hr
  rfl

/-- C2: the processor-provider hash carried in a successful `processClaim`
result is the lowercase keccak256 of the UTF-8 bytes of
`providerHash ++ "\n" ++ processorHash`, where `processorHash` is the
lowercase keccak256 of the canonical JSON serialization of the processor
document with the server-side `version` tag `"1.0.0"` injected before
hashing (the hashed document indeed binds `version` to `"1.0.0"`). -/
theorem claim_c2_processor_provider_hash (env : Env) (p : Processor)
    (c : ClaimData) (r : PipelineResult)
    (hok : processClaimCore env p c = Except.ok r) :
    ∃ providerHash,
      getProviderHash env.parseJson c.context = Except.ok providerHash ∧
      r.processorProviderHash =
        lowerStr (env.keccak (utf8Bytes (providerHash ++ "\n" ++
          lowerStr (env.keccak (utf8Bytes (canonicalStringify (Json.obj
            (setKey (env.procToDoc p) "version" (Json.str "1.0.0"))))))))) ∧
      lookupJ (setKey (env.procToDoc p) "version" (Json.str "1.0.0")) "version" =
        some (Json.str "1.0.0") := by
  obtain ⟨hv, extracted, transformed, vals, providerHash,
    hex, htr, hbo, hne, hph, hr⟩ := processClaimCore_ok_inv env p c r hok
  subst hr
  exact ⟨providerHash, hph, rfl, lookupJ_setKey_self _ _ _⟩

/-- A fully concrete environment on which the whole pipeline succeeds: one
extracted value, no transforms, a parseable context carrying a provider
hash, and stub keccak / ABI collaborators. -/
def pipeEnv : Env where
  query := fun _ p => if p = "$.amount" then [Json.str "100"] else []
  registry := fun _ => none
  evalCond := fun _ _ => true
  parseJson := fun s =>
    if s = "CTX" then some (Json.obj [("providerHash", Json.str "0xprov")])
    else none
  validateOk := fun _ => true
  keccak := fun _ => "0xHASH"
  abiEncode := fun _ _ => [1]
  procToDoc := fun _ => [("extract", Json.str "doc")]

/-- The processor run by the pipeline witnesses. -/
def pipeProc : Processor :=
  { extract := [("amount", "$.amount")], outputs := [⟨"amount", "uint256"⟩] }

/-- The claim record run by the pipeline witnesses. -/
def pipeClaim : ClaimData := { context := "CTX" }

/-- The pipeline result on the concrete witness inputs. -/
def pipeResult : PipelineResult :=
  ⟨"0xhash", "0xHASH", [⟨"amount", "uint256"⟩], [Json.str "100"]⟩

lemma pipeRun : processClaimCore pipeEnv pipeProc pipeClaim =
    Except.ok pipeResult := rfl

theorem claim_c1_message_hash_witness :
    encodeAndHash pipeEnv.keccak pipeEnv.abiEncode "0xhash" [Json.str "100"]
        [⟨"amount", "uint256"⟩] =
      pipeEnv.keccak (pipeEnv.abiEncode ["bytes32", "uint256"]
        [Json.str "0xhash", Json.str "100"]) ∧
    pipeResult.messageHash =
      pipeEnv.keccak (pipeEnv.abiEncode
        ("bytes32" :: pipeResult.outputs.map (fun o => o.type))
        (Json.str pipeResult.processorProviderHash :: pipeResult.values)) := by
  exact claim_c1_message_hash pipeEnv pipeProc pipeClaim pipeResult "0xhash"
    [Json.str "100"] [⟨"amount", "uint256"⟩] rfl pipeRun

theorem claim_c2_processor_provider_hash_witness :
    ∃ providerHash,
      getProviderHash pipeEnv.parseJson pipeClaim.context =
        Except.ok providerHash ∧
      pipeResult.processorProviderHash =
        lowerStr (pipeEnv.keccak (utf8Bytes (providerHash ++ "\n" ++
          lowerStr (pipeEnv.keccak (utf8Bytes (canonicalStringify (Json.obj
            (setKey (pipeEnv.procToDoc pipeProc) "version"
              (Json.str "1.0.0"))))))))) ∧
      lookupJ (setKey (pipeEnv.procToDoc pipeProc) "version" (Json.str "1.0.0"))
          "version" =
        some (Json.str "1.0.0") := by
  exact claim_c2_processor_provider_hash pipeEnv pipeProc pipeClaim pipeResult
    pipeRun
